import Mathlib

/-!
# BingoVirtual front end: the game slice and the lobby handlers

A shallow embedding of `src/store/slices/gameSlice.js` (the Redux slice that
caches the last known server state) and of the socket and click handlers of
`src/game/Home.jsx` that dispatch into it.

* A reducer written in the mutating style of Redux Toolkit is a pure function
  from the previous state and the action payload to the next state.
* A reducer that throws is a function into `Except`: the store keeps its
  previous state and no next state is produced.
* A handler that talks to the outside (a dispatch into another slice, a socket
  request) returns the list of effects it performs, in program order.
-/

namespace BingoVirtual

/-! ## Values and objects -/

/-- Primitive JavaScript values, the values that identifiers, status values and
the authenticated user id take. Numbers are the integer-valued ones. -/
inductive JSVal where
  | undefined
  | null
  | bool (b : Bool)
  | num (n : Int)
  | str (s : String)
  deriving DecidableEq, Repr

/-- JavaScript truthiness, as tested by `!x` and `if (x)`. -/
def JSVal.truthy : JSVal → Bool
  | .undefined => false
  | .null => false
  | .bool b => b
  | .num n => n != 0
  | .str s => s != ""

/-- The strict inequality `a !== b` on primitive values. -/
def strictNe (a b : JSVal) : Bool := a != b

/-- A game object as received from the server: its own properties, in order. -/
structure Game where
  props : List (String × JSVal)
  deriving DecidableEq, Repr

/-- Property read `o.k` on a property list: `undefined` when the key is absent. -/
def getProp : List (String × JSVal) → String → JSVal
  | [], _ => .undefined
  | (k', v) :: rest, k => if k' = k then v else getProp rest k

/-- Property write `o.k = v` on a property list: an existing property keeps its
place and takes the new value, a new property is added at the end. -/
def setProp : List (String × JSVal) → String → JSVal → List (String × JSVal)
  | [], k, v => [(k, v)]
  | (k', v') :: rest, k, v =>
    if k' = k then (k, v) :: rest else (k', v') :: setProp rest k v

/-- Property read on a game, `game.k`. -/
def Game.get (g : Game) (k : String) : JSVal := getProp g.props k

/-- Property write on a game, `game.k = v`. -/
def Game.set (g : Game) (k : String) (v : JSVal) : Game := ⟨setProp g.props k v⟩

/-- The property `game._id`. -/
def Game._id (g : Game) : JSVal := g.get "_id"

/-- The property `game.gameStatus`. -/
def Game.gameStatus (g : Game) : JSVal := g.get "gameStatus"

/-! ## The game slice (`gameSlice.js`) -/

/-- The slice state: `{ games, currentGame }`; `none` is `null`. -/
structure GameState where
  games : List Game
  currentGame : Option Game
  deriving DecidableEq, Repr

/-- The value of `initialState`: `{ games: [], currentGame: null }`. -/
def initialState : GameState := { games := [], currentGame := none }

/-- The error a reducer raises when it writes a property of `null`. -/
inductive JSError where
  | typeError
  deriving DecidableEq, Repr

/-- Reducer `setGames`: `state.games = action.payload`. -/
def setGames (state : GameState) (payload : List Game) : GameState :=
  { state with games := payload }

/-- Reducer `resetGames`: `state.games = []`. -/
def resetGames (state : GameState) : GameState :=
  { state with games := [] }

/-- Reducer `addGame`: `state.games.push(action.payload)`. -/
def addGame (state : GameState) (payload : Game) : GameState :=
  { state with games := state.games ++ [payload] }

/-- Reducer `setCurrentGame`: `state.currentGame = action.payload`. -/
def setCurrentGame (state : GameState) (payload : Option Game) : GameState :=
  { state with currentGame := payload }

/-- Reducer `setCurrentGameStatus`: `state.currentGame.gameStatus = action.payload`.
The write throws a `TypeError` when `state.currentGame` is `null`. -/
def setCurrentGameStatus (state : GameState) (payload : JSVal) : Except JSError GameState :=
  match state.currentGame with
  | none => .error .typeError
  | some g => .ok { state with currentGame := some (g.set "gameStatus" payload) }

/-- Reducer `deleteGame`:
`state.games = state.games.filter((game) => game._id !== action.payload)`. -/
def deleteGame (state : GameState) (payload : JSVal) : GameState :=
  { state with games := state.games.filter (fun game => strictNe game._id payload) }

/-- The four actions of the view cache that mirror server-pushed facts. -/
inductive CacheAction where
  | setGames (payload : List Game)
  | addGame (payload : Game)
  | deleteGame (payload : JSVal)
  | setCurrentGame (payload : Option Game)
  deriving DecidableEq, Repr

/-- The slice reducer on one of the four cache actions. -/
def reduce (state : GameState) : CacheAction → GameState
  | .setGames xs => setGames state xs
  | .addGame g => addGame state g
  | .deleteGame id => deleteGame state id
  | .setCurrentGame c => setCurrentGame state c

/-- The slice reducer over a sequence of actions, first action first. -/
def reduceAll (state : GameState) (actions : List CacheAction) : GameState :=
  actions.foldl reduce state

/-! ## The lobby handlers (`Home.jsx`) -/

/-- What a handler of `Home` does to the outside of the game slice. -/
inductive Effect where
  | dispatchSetError (message : String)
  | emit (event : String) (args : List JSVal)
  deriving DecidableEq, Repr

/-- Modelled from the spec: `joinGame` of the `useSocket` hook (the hook is not
part of the sources), which sends the client request `join_game(gameId, userId)`. -/
def joinGame (gameId userId : JSVal) : List Effect :=
  [.emit "join_game" [gameId, userId]]

/-- The message of the error set by `handleJoinGame`. -/
def joinErrorMessage : String :=
  "El ID del usuario no está definido. No se puede unir al juego."

/-- Handler `handleJoinGame`, with the `userId` selected from the auth slice. -/
def handleJoinGame (userId : JSVal) (gameId : JSVal) : List Effect :=
  if !userId.truthy then
    [.dispatchSetError joinErrorMessage]
  else
    joinGame gameId userId

/-- Socket handler `onGamesList`, on the game slice: `dispatch(setGames(data))`. -/
def onGamesList (state : GameState) (data : List Game) : GameState :=
  setGames state data

/-- Socket handler `onGameCreated`, on the game slice: `dispatch(addGame(game))`. -/
def onGameCreated (state : GameState) (game : Game) : GameState :=
  addGame state game

/-- Socket handler `onGameDeleted`, on the game slice: `dispatch(deleteGame(gameId))`. -/
def onGameDeleted (state : GameState) (gameId : JSVal) : GameState :=
  deleteGame state gameId

/-- Socket handler `onGameJoined`, on the game slice: `dispatch(setCurrentGame(game))`. -/
def onGameJoined (state : GameState) (game : Game) : GameState :=
  setCurrentGame state (some game)

/-- Click handler `onLeaveGame`: `dispatch(setCurrentGame(null))`. -/
def onLeaveGame (state : GameState) : GameState :=
  setCurrentGame state none

/-- Whether an effect is a `join_game` request to the server. -/
def Effect.isJoinRequest : Effect → Bool
  | .emit event _ => event == "join_game"
  | .dispatchSetError _ => false

/-- Whether an effect sets the request-status error. -/
def Effect.isSetError : Effect → Bool
  | .dispatchSetError _ => true
  | .emit _ _ => false

/-! ## Sequences of actions -/

/-- Whether a cache action is an `addGame` or a `deleteGame`. -/
def CacheAction.isAddOrDelete : CacheAction → Bool
  | .addGame _ => true
  | .deleteGame _ => true
  | .setGames _ => false
  | .setCurrentGame _ => false

/-- The `_id`s of the cached games, in list order. -/
def cachedIds (state : GameState) : List JSVal := state.games.map Game._id

/-- Whether a cache action is an `addGame`, a `deleteGame`, or a `setGames` with
a list whose `_id`s are pairwise distinct. -/
def CacheAction.isLobbyUpdate : CacheAction → Bool
  | .addGame _ => true
  | .deleteGame _ => true
  | .setGames xs => decide (xs.map Game._id).Nodup
  | .setCurrentGame _ => false

/-- Whether a lobby update brings no second entry for an `_id`: an `addGame`
whose game has an `_id` that no cached game has, a `deleteGame`, or a `setGames`
with a list whose `_id`s are pairwise distinct. -/
def freshUpdate (state : GameState) : CacheAction → Bool
  | .addGame g => state.games.all (fun x => strictNe x._id g._id)
  | .deleteGame _ => true
  | .setGames xs => decide (xs.map Game._id).Nodup
  | .setCurrentGame _ => false

/-- Whether every action of a sequence is a fresh update of the state it is
applied to, starting from the given state. -/
def freshUpdates (state : GameState) : List CacheAction → Bool
  | [] => true
  | a :: rest => freshUpdate state a && freshUpdates (reduce state a) rest

/-- Whether two cache actions carry facts that do not depend on the order of
application: one of them is `setCurrentGame` and the other is not; both are
`deleteGame`; an `addGame` and a `deleteGame` of another `_id`; a `setGames` and
a `deleteGame` of an `_id` absent from the list; or twice the same action. -/
def orderIndependent : CacheAction → CacheAction → Bool
  | .setCurrentGame c, .setCurrentGame d => decide (c = d)
  | .setCurrentGame _, _ => true
  | _, .setCurrentGame _ => true
  | .deleteGame _, .deleteGame _ => true
  | .addGame g, .deleteGame id => strictNe g._id id
  | .deleteGame id, .addGame g => strictNe g._id id
  | .setGames xs, .deleteGame id => xs.all (fun g => strictNe g._id id)
  | .deleteGame id, .setGames xs => xs.all (fun g => strictNe g._id id)
  | .setGames xs, .setGames ys => decide (xs = ys)
  | .addGame g, .addGame h => decide (g = h)
  | .setGames _, .addGame _ => false
  | .addGame _, .setGames _ => false

/-! ## Sample data -/

/-- A game with the given id, waiting for players. -/
def sampleGame (id : String) : Game :=
  ⟨[("_id", .str id), ("gameStatus", .str "waiting")]⟩

/-- A state with two cached games, the first of which is the current game. -/
def sampleState : GameState :=
  { games := [sampleGame "a", sampleGame "b"], currentGame := some (sampleGame "a") }

/-! ## Properties of the reducers -/

theorem filter_strictNe_absent (games : List Game) (id : JSVal)
    (h : ∀ g ∈ games, g._id ≠ id) :
    games.filter (fun game => strictNe game._id id) = games := by
  apply List.filter_eq_self.mpr
  intro g hg
  simpa [strictNe] using h g hg

theorem mem_filter_strictNe (games : List Game) (id : JSVal) (x : Game) :
    x ∈ games.filter (fun game => strictNe game._id id) ↔ x ∈ games ∧ x._id ≠ id := by
  simp [List.mem_filter, strictNe]

/-- C1: `deleteGame` changes nothing when no cached game has the given `_id`,
and applying `deleteGame(id)` twice gives the same state as applying it once;
the same holds for the `game_deleted` handler that dispatches it. -/
theorem deleteGame_absent_noop_idempotent (s : GameState) (id : JSVal) :
    ((∀ g ∈ s.games, g._id ≠ id) → deleteGame s id = s) ∧
    deleteGame (deleteGame s id) id = deleteGame s id ∧
    onGameDeleted (onGameDeleted s id) id = onGameDeleted s id := by
  have idem : deleteGame (deleteGame s id) id = deleteGame s id := by
    simp [deleteGame, List.filter_filter]
  refine ⟨?_, idem, ?_⟩
  · intro h
    cases s with
    | mk games cur =>
      simp only [deleteGame]
      rw [filter_strictNe_absent games id h]
  · simpa [onGameDeleted] using idem

theorem deleteGame_absent_noop_idempotent_witness :
    (∀ g ∈ sampleState.games, g._id ≠ .str "zzz") ∧
    deleteGame sampleState (.str "zzz") = sampleState :=
  ⟨by decide, (deleteGame_absent_noop_idempotent sampleState (.str "zzz")).1 (by decide)⟩

/-- C5: the cached list is kept in insertion order. `addGame(g)` yields the old
games followed by `g` as last element (one entry more, the earlier entries
unchanged at their positions), and `deleteGame(id)` yields exactly the old games
whose `_id` differs from `id`, in their original relative order. -/
theorem games_insertion_order (s : GameState) (g : Game) (id : JSVal) :
    (addGame s g).games = s.games ++ [g] ∧
    (addGame s g).games.length = s.games.length + 1 ∧
    (addGame s g).games.getLast? = some g ∧
    (∀ i, i < s.games.length → (addGame s g).games[i]? = s.games[i]?) ∧
    (deleteGame s id).games = s.games.filter (fun x => decide (x._id ≠ id)) ∧
    List.Sublist (deleteGame s id).games s.games ∧
    (∀ x, x ∈ (deleteGame s id).games ↔ x ∈ s.games ∧ x._id ≠ id) := by
  refine ⟨rfl, by simp [addGame], by simp [addGame], ?_, ?_, ?_, ?_⟩
  · intro i hi
    simp [addGame, List.getElem?_append_left hi]
  · simp only [deleteGame]
    congr 1
    funext x
    by_cases h : x._id = id <;> simp [strictNe, h]
  · exact List.filter_sublist _
  · intro x
    exact mem_filter_strictNe s.games id x

theorem games_insertion_order_witness :
    0 < sampleState.games.length ∧
    (addGame sampleState (sampleGame "c")).games[0]? = sampleState.games[0]? :=
  ⟨by decide, (games_insertion_order sampleState (sampleGame "c") .null).2.2.2.1 0 (by decide)⟩

/-- C7: `setGames(xs)` makes `games` exactly `xs` whatever the prior games were,
so a later snapshot replaces an earlier one; `resetGames` is `setGames([])` and
gives `games` its initial value. -/
theorem setGames_mirrors_snapshot (s : GameState) (xs ys zs : List Game) :
    (setGames s xs).games = xs ∧
    setGames { s with games := zs } xs = setGames s xs ∧
    setGames (setGames s xs) ys = setGames s ys ∧
    onGamesList (onGamesList s xs) ys = onGamesList s ys ∧
    resetGames s = setGames s [] ∧
    (resetGames s).games = initialState.games :=
  ⟨rfl, rfl, rfl, rfl, rfl, rfl⟩

/-- C8: `games` and `currentGame` are independent fields. `setGames`,
`resetGames`, `addGame` and `deleteGame` leave `currentGame` unchanged and
`setCurrentGame` leaves `games` unchanged; in particular, when the current game
has `_id` equal to `id`, after `deleteGame(id)` the current game is still that
game while `games` holds neither it nor any other game of that `_id`. -/
theorem games_currentGame_independent (s : GameState) (xs : List Game) (g : Game)
    (id : JSVal) (c : Option Game) :
    (setGames s xs).currentGame = s.currentGame ∧
    (resetGames s).currentGame = s.currentGame ∧
    (addGame s g).currentGame = s.currentGame ∧
    (deleteGame s id).currentGame = s.currentGame ∧
    (setCurrentGame s c).games = s.games ∧
    (∀ cur, s.currentGame = some cur → cur._id = id →
      (deleteGame s id).currentGame = some cur ∧
      cur ∉ (deleteGame s id).games ∧
      ∀ x ∈ (deleteGame s id).games, x._id ≠ id) := by
  refine ⟨rfl, rfl, rfl, rfl, rfl, ?_⟩
  intro cur hcur hid
  refine ⟨hcur, ?_, ?_⟩
  · intro hmem
    exact ((mem_filter_strictNe s.games id cur).mp hmem).2 hid
  · intro x hx
    exact ((mem_filter_strictNe s.games id x).mp hx).2

theorem games_currentGame_independent_witness :
    (sampleState.currentGame = some (sampleGame "a") ∧ (sampleGame "a")._id = .str "a") ∧
    (deleteGame sampleState (.str "a")).currentGame = some (sampleGame "a") ∧
    sampleGame "a" ∉ (deleteGame sampleState (.str "a")).games ∧
    ∀ x ∈ (deleteGame sampleState (.str "a")).games, x._id ≠ .str "a" :=
  ⟨by decide,
    (games_currentGame_independent sampleState [] (sampleGame "c") (.str "a") none).2.2.2.2.2
      (sampleGame "a") (by decide) (by decide)⟩

theorem getProp_setProp_same (ps : List (String × JSVal)) (k : String) (v : JSVal) :
    getProp (setProp ps k v) k = v := by
  induction ps with
  | nil => simp [setProp, getProp]
  | cons p rest ih =>
    obtain ⟨k', v'⟩ := p
    by_cases h : k' = k
    · simp [setProp, getProp, h]
    · simp [setProp, getProp, h, ih]

theorem getProp_setProp_other (ps : List (String × JSVal)) (k j : String) (v : JSVal)
    (hj : j ≠ k) : getProp (setProp ps k v) j = getProp ps j := by
  induction ps with
  | nil =>
    have hk : ¬ k = j := fun e => hj e.symm
    simp [setProp, getProp, hk]
  | cons p rest ih =>
    obtain ⟨k', v'⟩ := p
    by_cases h : k' = k
    · have hk : ¬ k = j := fun e => hj e.symm
      simp [setProp, getProp, h, hk]
    · by_cases h2 : k' = j
      · subst h2
        simp [setProp, getProp, h]
      · simp [setProp, getProp, h, h2, ih]

theorem setProp_setProp_same (ps : List (String × JSVal)) (k : String) (v : JSVal) :
    setProp (setProp ps k v) k v = setProp ps k v := by
  induction ps with
  | nil => simp [setProp]
  | cons p rest ih =>
    obtain ⟨k', v'⟩ := p
    by_cases h : k' = k
    · simp [setProp, h]
    · simp [setProp, h, ih]

theorem setProp_filter_other (ps : List (String × JSVal)) (k : String) (v : JSVal) :
    (setProp ps k v).filter (fun p => decide (p.1 ≠ k)) =
      ps.filter (fun p => decide (p.1 ≠ k)) := by
  induction ps with
  | nil => simp [setProp]
  | cons p rest ih =>
    obtain ⟨k', v'⟩ := p
    by_cases h : k' = k
    · simp [setProp, h]
    · simp only [setProp, h, if_false, List.filter_cons, ih]

/-- C9: when `currentGame` is not `null`, `setCurrentGameStatus(st)` returns a
state whose current game has `gameStatus` equal to `st`, has every other
property unchanged (same values, same properties in the same order), and whose
`games` is unchanged; applying it again with the same `st` changes nothing. -/
theorem setCurrentGameStatus_sets_status (s : GameState) (cur : Game) (st : JSVal)
    (h : s.currentGame = some cur) :
    ∃ s' cur', setCurrentGameStatus s st = .ok s' ∧
      s'.currentGame = some cur' ∧
      cur'.gameStatus = st ∧
      (∀ k, k ≠ "gameStatus" → cur'.get k = cur.get k) ∧
      cur'.props.filter (fun p => decide (p.1 ≠ "gameStatus")) =
        cur.props.filter (fun p => decide (p.1 ≠ "gameStatus")) ∧
      s'.games = s.games ∧
      setCurrentGameStatus s' st = .ok s' := by
  refine ⟨{ s with currentGame := some (cur.set "gameStatus" st) },
    cur.set "gameStatus" st, ?_, rfl, ?_, ?_, ?_, rfl, ?_⟩
  · simp [setCurrentGameStatus, h]
  · exact getProp_setProp_same cur.props "gameStatus" st
  · intro k hk
    exact getProp_setProp_other cur.props "gameStatus" k st hk
  · exact setProp_filter_other cur.props "gameStatus" st
  · simp [setCurrentGameStatus, Game.set, setProp_setProp_same]

theorem setCurrentGameStatus_sets_status_witness :
    sampleState.currentGame = some (sampleGame "a") ∧
    ∃ s' cur', setCurrentGameStatus sampleState (.str "in_progress") = .ok s' ∧
      s'.currentGame = some cur' ∧
      cur'.gameStatus = .str "in_progress" ∧
      (∀ k, k ≠ "gameStatus" → cur'.get k = (sampleGame "a").get k) ∧
      cur'.props.filter (fun p => decide (p.1 ≠ "gameStatus")) =
        (sampleGame "a").props.filter (fun p => decide (p.1 ≠ "gameStatus")) ∧
      s'.games = sampleState.games ∧
      setCurrentGameStatus s' (.str "in_progress") = .ok s' :=
  ⟨rfl, setCurrentGameStatus_sets_status sampleState (sampleGame "a") (.str "in_progress") rfl⟩

/-- C10: `setCurrentGameStatus` fails exactly when there is no current game.
It raises an error and produces no new state if and only if `currentGame` is
`null`; so it fails on the initial state, after `setCurrentGame(null)`, and after
leaving the current game. -/
theorem setCurrentGameStatus_fails_iff_null (s : GameState) (st : JSVal) :
    (((∃ e, setCurrentGameStatus s st = .error e) ∧
        ¬ ∃ s', setCurrentGameStatus s st = .ok s') ↔ s.currentGame = none) ∧
    ((∃ s', setCurrentGameStatus s st = .ok s') ↔ s.currentGame ≠ none) ∧
    setCurrentGameStatus initialState st = .error .typeError ∧
    setCurrentGameStatus (setCurrentGame s none) st = .error .typeError ∧
    setCurrentGameStatus (onLeaveGame s) st = .error .typeError := by
  refine ⟨?_, ?_, rfl, rfl, rfl⟩
  · cases hc : s.currentGame with
    | none =>
      have herr : setCurrentGameStatus s st = .error .typeError := by
        simp [setCurrentGameStatus, hc]
      rw [herr]
      exact ⟨fun _ => rfl, fun _ => ⟨⟨.typeError, rfl⟩, fun ⟨_, h⟩ => by cases h⟩⟩
    | some g => simp [setCurrentGameStatus, hc]
  · cases hc : s.currentGame with
    | none => simp [setCurrentGameStatus, hc]
    | some g => simp [setCurrentGameStatus, hc]

/-- C6: `handleJoinGame` enforces the user-identity precondition of join. When
the authenticated `userId` is missing (`null`, `undefined` or another falsy
value) it sends no `join_game` request and sets the request-status error; when
`userId` is present it sends exactly one `join_game(gameId, userId)` request,
carrying that `gameId` and that `userId`, and sets no error. -/
theorem handleJoinGame_requires_userId (userId gameId : JSVal) :
    (userId.truthy = false →
      handleJoinGame userId gameId = [.dispatchSetError joinErrorMessage] ∧
      (handleJoinGame userId gameId).filter Effect.isJoinRequest = [] ∧
      (handleJoinGame userId gameId).filter Effect.isSetError ≠ []) ∧
    (userId.truthy = true →
      handleJoinGame userId gameId = [.emit "join_game" [gameId, userId]] ∧
      (handleJoinGame userId gameId).filter Effect.isJoinRequest =
        [.emit "join_game" [gameId, userId]] ∧
      (handleJoinGame userId gameId).filter Effect.isSetError = []) ∧
    (userId.truthy = false ↔
      userId = .undefined ∨ userId = .null ∨ userId = .bool false ∨
      userId = .num 0 ∨ userId = .str "") := by
  refine ⟨?_, ?_, ?_⟩
  · intro h
    simp [handleJoinGame, h, Effect.isJoinRequest, Effect.isSetError]
  · intro h
    simp [handleJoinGame, h, joinGame, Effect.isJoinRequest, Effect.isSetError]
  · cases userId <;> simp [JSVal.truthy]

theorem handleJoinGame_requires_userId_witness :
    (JSVal.null.truthy = false ∧ (JSVal.str "u1").truthy = true) ∧
    handleJoinGame .null (.str "g1") = [.dispatchSetError joinErrorMessage] ∧
    handleJoinGame (.str "u1") (.str "g1") = [.emit "join_game" [.str "g1", .str "u1"]] :=
  ⟨by decide,
    ((handleJoinGame_requires_userId .null (.str "g1")).1 (by decide)).1,
    ((handleJoinGame_requires_userId (.str "u1") (.str "g1")).2.1 (by decide)).1⟩

theorem reduceAll_append (s : GameState) (xs ys : List CacheAction) :
    reduceAll s (xs ++ ys) = reduceAll (reduceAll s xs) ys := by
  simp [reduceAll, List.foldl_append]

theorem reduceAll_cons (s : GameState) (a : CacheAction) (rest : List CacheAction) :
    reduceAll s (a :: rest) = reduceAll (reduce s a) rest := rfl

theorem mem_addGame (s : GameState) (x g : Game) :
    g ∈ (addGame s x).games ↔ g ∈ s.games ∨ g = x := by
  simp [addGame]

theorem mem_deleteGame (s : GameState) (id : JSVal) (g : Game) :
    g ∈ (deleteGame s id).games ↔ g ∈ s.games ∧ g._id ≠ id :=
  mem_filter_strictNe s.games id g

/-- A game is cached after a run of `addGame` and `deleteGame` actions exactly
when it was cached before and never deleted, or was added and not deleted
afterwards. -/
theorem mem_reduceAll_iff (g : Game) (acts : List CacheAction) :
    ∀ s : GameState, (∀ a ∈ acts, a.isAddOrDelete = true) →
      (g ∈ (reduceAll s acts).games ↔
        (g ∈ s.games ∧ CacheAction.deleteGame g._id ∉ acts) ∨
        ∃ pre post, acts = pre ++ CacheAction.addGame g :: post ∧
          CacheAction.deleteGame g._id ∉ post) := by
  induction acts with
  | nil => intro s _; simp [reduceAll]
  | cons a rest ih =>
    intro s h
    have hrest : ∀ b ∈ rest, b.isAddOrDelete = true :=
      fun b hb => h b (List.mem_cons_of_mem _ hb)
    rw [reduceAll_cons, ih (reduce s a) hrest]
    cases a with
    | setGames xs => simpa [CacheAction.isAddOrDelete] using h (.setGames xs)
    | setCurrentGame c => simpa [CacheAction.isAddOrDelete] using h (.setCurrentGame c)
    | addGame x =>
      simp only [reduce, mem_addGame]
      constructor
      · rintro (⟨hg | hg, hnd⟩ | ⟨pre, post, hsplit, hnd⟩)
        · exact Or.inl ⟨hg, by simp [hnd]⟩
        · exact Or.inr ⟨[], rest, by simp [hg], hnd⟩
        · exact Or.inr ⟨.addGame x :: pre, post, by simp [hsplit], hnd⟩
      · rintro (⟨hg, hnd⟩ | ⟨pre, post, hsplit, hnd⟩)
        · exact Or.inl ⟨Or.inl hg, fun hm => hnd (List.mem_cons_of_mem _ hm)⟩
        · cases pre with
          | nil =>
            simp only [List.nil_append, List.cons.injEq, CacheAction.addGame.injEq] at hsplit
            exact Or.inl ⟨Or.inr hsplit.1.symm, hsplit.2 ▸ hnd⟩
          | cons p pre' =>
            simp only [List.cons_append, List.cons.injEq] at hsplit
            exact Or.inr ⟨pre', post, hsplit.2, hnd⟩
    | deleteGame id =>
      simp only [reduce, mem_deleteGame]
      constructor
      · rintro (⟨⟨hg, hne⟩, hnd⟩ | ⟨pre, post, hsplit, hnd⟩)
        · refine Or.inl ⟨hg, ?_⟩
          simp only [List.mem_cons, CacheAction.deleteGame.injEq, not_or]
          exact ⟨hne, hnd⟩
        · exact Or.inr ⟨.deleteGame id :: pre, post, by simp [hsplit], hnd⟩
      · rintro (⟨hg, hnd⟩ | ⟨pre, post, hsplit, hnd⟩)
        · simp only [List.mem_cons, CacheAction.deleteGame.injEq, not_or] at hnd
          exact Or.inl ⟨⟨hg, hnd.1⟩, hnd.2⟩
        · cases pre with
          | nil => simp at hsplit
          | cons p pre' =>
            simp only [List.cons_append, List.cons.injEq] at hsplit
            exact Or.inr ⟨pre', post, hsplit.2, hnd⟩

/-- After a run of `addGame` and `deleteGame` actions from a state that caches
no game of a given `_id`, a cached game of that `_id` was added during the run. -/
theorem added_of_mem_reduceAll (g : Game) (acts : List CacheAction) :
    ∀ s : GameState, (∀ a ∈ acts, a.isAddOrDelete = true) →
      (∀ y ∈ s.games, y._id ≠ g._id) → g ∈ (reduceAll s acts).games →
      ∃ x, CacheAction.addGame x ∈ acts ∧ x._id = g._id := by
  induction acts with
  | nil =>
    intro s _ hs hg
    exact absurd rfl (hs g hg)
  | cons a rest ih =>
    intro s h hs hg
    have hrest : ∀ b ∈ rest, b.isAddOrDelete = true :=
      fun b hb => h b (List.mem_cons_of_mem _ hb)
    rw [reduceAll_cons] at hg
    cases a with
    | setGames xs => simpa [CacheAction.isAddOrDelete] using h (.setGames xs)
    | setCurrentGame c => simpa [CacheAction.isAddOrDelete] using h (.setCurrentGame c)
    | addGame x =>
      by_cases hx : x._id = g._id
      · exact ⟨x, List.mem_cons_self _ _, hx⟩
      · have hs' : ∀ y ∈ (reduce s (.addGame x)).games, y._id ≠ g._id := by
          intro y hy
          rcases (mem_addGame s x y).mp hy with hy | hy
          · exact hs y hy
          · exact hy ▸ hx
        obtain ⟨z, hz, hzid⟩ := ih _ hrest hs' hg
        exact ⟨z, List.mem_cons_of_mem _ hz, hzid⟩
    | deleteGame id =>
      have hs' : ∀ y ∈ (reduce s (.deleteGame id)).games, y._id ≠ g._id :=
        fun y hy => hs y ((mem_deleteGame s id y).mp hy).1
      obtain ⟨z, hz, hzid⟩ := ih _ hrest hs' hg
      exact ⟨z, List.mem_cons_of_mem _ hz, hzid⟩

/-- C3: after any finite sequence of `addGame` and `deleteGame` actions applied
to the initial state, a cached game has the `_id` of a game added by the
sequence, its `_id` is not the payload of a `deleteGame` that comes after the
last `addGame` of that `_id`, and a game is cached exactly when the sequence adds
it and does not delete its `_id` afterwards (so every game added and not deleted
afterwards is present). -/
theorem addGame_deleteGame_visibility (acts : List CacheAction)
    (h : ∀ a ∈ acts, a.isAddOrDelete = true) (g : Game) :
    (g ∈ (reduceAll initialState acts).games →
      ∃ x, CacheAction.addGame x ∈ acts ∧ x._id = g._id) ∧
    (g ∈ (reduceAll initialState acts).games →
      ∀ pre post, acts = pre ++ CacheAction.deleteGame g._id :: post →
        ∃ x, CacheAction.addGame x ∈ post ∧ x._id = g._id) ∧
    (g ∈ (reduceAll initialState acts).games ↔
      ∃ pre post, acts = pre ++ CacheAction.addGame g :: post ∧
        CacheAction.deleteGame g._id ∉ post) := by
  have hiff := mem_reduceAll_iff g acts initialState h
  simp only [initialState, List.not_mem_nil, false_and, false_or] at hiff
  refine ⟨?_, ?_, hiff⟩
  · intro hg
    obtain ⟨pre, post, hsplit, _⟩ := hiff.mp hg
    exact ⟨g, by simp [hsplit], rfl⟩
  · intro hg pre post hsplit
    subst hsplit
    have hpost : ∀ b ∈ post, b.isAddOrDelete = true :=
      fun b hb => h b (by simp [hb])
    rw [reduceAll_append, reduceAll_cons] at hg
    refine added_of_mem_reduceAll g post _ hpost ?_ hg
    intro y hy
    exact ((mem_deleteGame _ _ y).mp hy).2

theorem addGame_deleteGame_visibility_witness :
    (∀ a ∈ [CacheAction.addGame (sampleGame "a"), .deleteGame (.str "a"),
        .addGame (sampleGame "b")], a.isAddOrDelete = true) ∧
    sampleGame "b" ∈ (reduceAll initialState [CacheAction.addGame (sampleGame "a"),
        .deleteGame (.str "a"), .addGame (sampleGame "b")]).games ∧
    sampleGame "a" ∉ (reduceAll initialState [CacheAction.addGame (sampleGame "a"),
        .deleteGame (.str "a"), .addGame (sampleGame "b")]).games :=
  ⟨by decide,
    (addGame_deleteGame_visibility _ (by decide) (sampleGame "b")).2.2.mpr
      ⟨[.addGame (sampleGame "a"), .deleteGame (.str "a")], [], rfl, by decide⟩,
    by decide⟩

theorem nodup_cachedIds_reduce (s : GameState) (a : CacheAction)
    (hs : (cachedIds s).Nodup) (ha : freshUpdate s a = true) :
    (cachedIds (reduce s a)).Nodup := by
  cases a with
  | setGames xs => simpa [freshUpdate, reduce, setGames, cachedIds] using ha
  | setCurrentGame c => simp [freshUpdate] at ha
  | deleteGame id =>
    exact hs.sublist ((List.filter_sublist s.games).map Game._id)
  | addGame g =>
    have hfresh : ∀ x ∈ s.games, x._id ≠ g._id := by
      simpa [freshUpdate, strictNe] using ha
    have hnot : g._id ∉ cachedIds s := by
      intro hmem
      obtain ⟨x, hx, hxid⟩ := List.mem_map.mp hmem
      exact hfresh x hx hxid
    simp only [reduce, addGame, cachedIds, List.map_append, List.map_cons, List.map_nil]
    refine List.Nodup.append hs (List.nodup_singleton _) ?_
    intro y hy hy'
    rw [List.mem_singleton] at hy'
    exact hnot (hy' ▸ hy)

theorem nodup_cachedIds_reduceAll (acts : List CacheAction) :
    ∀ s : GameState, (cachedIds s).Nodup → freshUpdates s acts = true →
      (cachedIds (reduceAll s acts)).Nodup := by
  induction acts with
  | nil => intro s hs _; exact hs
  | cons a rest ih =>
    intro s hs h
    simp only [freshUpdates, Bool.and_eq_true] at h
    rw [reduceAll_cons]
    exact ih _ (nodup_cachedIds_reduce s a hs h.1) h.2

/-- C4, as stated, fails: adding the same game twice is a sequence of lobby
updates from the initial state after which two cached games share an `_id`. -/
theorem duplicate_id_after_addGame_twice :
    (∀ a ∈ [CacheAction.addGame (sampleGame "a"), .addGame (sampleGame "a")],
      a.isLobbyUpdate = true) ∧
    ¬ (cachedIds (reduceAll initialState
        [CacheAction.addGame (sampleGame "a"), .addGame (sampleGame "a")])).Nodup := by
  decide

/-- C4, amended: in every state reached from the initial state by a sequence of
`addGame`, `deleteGame` and `setGames` actions in which every `setGames` carries
a list with pairwise distinct `_id`s and every `addGame` carries a game whose
`_id` no cached game has at that point, no two cached games share an `_id`. -/
theorem cachedIds_nodup_of_freshUpdates (acts : List CacheAction)
    (h : freshUpdates initialState acts = true) :
    (cachedIds (reduceAll initialState acts)).Nodup ∧
    List.Pairwise (fun x y : Game => x._id ≠ y._id) (reduceAll initialState acts).games := by
  have hn := nodup_cachedIds_reduceAll acts initialState (by simp [cachedIds, initialState]) h
  exact ⟨hn, (List.pairwise_map (f := Game._id)).mp hn⟩

theorem cachedIds_nodup_of_freshUpdates_witness :
    freshUpdates initialState [CacheAction.addGame (sampleGame "a"),
      .addGame (sampleGame "b"), .deleteGame (.str "a"), .addGame (sampleGame "a"),
      .setGames [sampleGame "c", sampleGame "d"]] = true ∧
    (cachedIds (reduceAll initialState [CacheAction.addGame (sampleGame "a"),
      .addGame (sampleGame "b"), .deleteGame (.str "a"), .addGame (sampleGame "a"),
      .setGames [sampleGame "c", sampleGame "d"]])).Nodup :=
  ⟨by decide, (cachedIds_nodup_of_freshUpdates _ (by decide)).1⟩

theorem deleteGame_comm (s : GameState) (i j : JSVal) :
    deleteGame (deleteGame s i) j = deleteGame (deleteGame s j) i := by
  simp only [deleteGame, List.filter_filter, GameState.mk.injEq, and_true]
  congr 1
  funext x
  exact Bool.and_comm _ _

theorem deleteGame_addGame_of_ne (s : GameState) (g : Game) (id : JSVal)
    (h : g._id ≠ id) : deleteGame (addGame s g) id = addGame (deleteGame s id) g := by
  simp [deleteGame, addGame, List.filter_append, strictNe, h]

theorem deleteGame_addGame_of_eq (s : GameState) (g : Game) (id : JSVal)
    (h : g._id = id) : deleteGame (addGame s g) id = deleteGame s id := by
  simp [deleteGame, addGame, List.filter_append, strictNe, h]

theorem addGame_ne_self (s : GameState) (g : Game) : addGame s g ≠ s := by
  intro h
  have hlen := congrArg (fun t => t.games.length) h
  simp [addGame] at hlen

theorem all_strictNe_iff (xs : List Game) (id : JSVal) :
    xs.all (fun g => strictNe g._id id) = true ↔ ∀ g ∈ xs, g._id ≠ id := by
  simp [List.all_eq_true, strictNe]

/-- C2, as stated, fails: a `setGames` snapshot and an `addGame` give different
caches in the two orders. -/
theorem setGames_addGame_order_dependent :
    reduce (reduce initialState (.setGames [sampleGame "a"])) (.addGame (sampleGame "b")) ≠
    reduce (reduce initialState (.addGame (sampleGame "b"))) (.setGames [sampleGame "a"]) := by
  decide

/-- C2, amended: for two actions `a` and `b` drawn from `setGames`, `addGame`,
`deleteGame` and `setCurrentGame`, applying `a` then `b` yields the same state
as applying `b` then `a`, for every cache state, exactly when the two carry
order-independent facts: one is `setCurrentGame` and the other is not, both are
`deleteGame`, one is `addGame(g)` and the other `deleteGame(id)` with another
`_id`, one is `setGames(xs)` and the other `deleteGame(id)` with no entry of
`xs` having that `_id`, or both are the same action with the same payload. -/
theorem reduce_comm_iff_orderIndependent (a b : CacheAction) :
    (∀ s : GameState, reduce (reduce s a) b = reduce (reduce s b) a) ↔
      orderIndependent a b = true := by
  cases a with
  | setGames xs =>
    cases b with
    | setGames ys =>
      simp only [orderIndependent, decide_eq_true_eq, reduce]
      constructor
      · intro h
        have h0 := congrArg GameState.games (h initialState)
        exact h0.symm
      · intro h s
        rw [h]
    | addGame g =>
      simp only [orderIndependent, reduce]
      constructor
      · intro h
        exact absurd (h initialState) (addGame_ne_self _ g)
      · intro h
        cases h
    | deleteGame id =>
      simp only [orderIndependent, reduce, all_strictNe_iff]
      constructor
      · intro h g hg hid
        have h0 := congrArg GameState.games (h initialState)
        have hmem : g ∈ (deleteGame (setGames initialState xs) id).games := by
          rw [h0]
          exact hg
        exact ((mem_deleteGame _ id g).mp hmem).2 hid
      · intro h s
        simp only [deleteGame, setGames, GameState.mk.injEq, and_true]
        exact filter_strictNe_absent xs id h
    | setCurrentGame c =>
      simp [orderIndependent, reduce, setGames, setCurrentGame]
  | addGame g =>
    cases b with
    | setGames ys =>
      simp only [orderIndependent, reduce]
      constructor
      · intro h
        exact absurd (h initialState).symm (addGame_ne_self _ g)
      · intro h
        cases h
    | addGame x =>
      simp only [orderIndependent, decide_eq_true_eq, reduce]
      constructor
      · intro h
        have h0 := congrArg GameState.games (h initialState)
        simp only [addGame, initialState, List.nil_append, List.cons_append,
          List.cons.injEq, and_true] at h0
        exact h0.1
      · intro h s
        rw [h]
    | deleteGame id =>
      simp only [orderIndependent, reduce, strictNe, bne_iff_ne]
      constructor
      · intro h hid
        have h0 := h initialState
        rw [deleteGame_addGame_of_eq _ g id hid] at h0
        exact addGame_ne_self _ g h0.symm
      · intro h s
        exact deleteGame_addGame_of_ne s g id h
    | setCurrentGame c =>
      simp [orderIndependent, reduce, addGame, setCurrentGame]
  | deleteGame id =>
    cases b with
    | setGames ys =>
      simp only [orderIndependent, reduce, all_strictNe_iff]
      constructor
      · intro h g hg hid
        have h0 := congrArg GameState.games (h initialState)
        have hmem : g ∈ (deleteGame (setGames initialState ys) id).games := by
          rw [← h0]
          exact hg
        exact ((mem_deleteGame _ id g).mp hmem).2 hid
      · intro h s
        simp only [deleteGame, setGames, GameState.mk.injEq, and_true]
        exact (filter_strictNe_absent ys id h).symm
    | addGame x =>
      simp only [orderIndependent, reduce, strictNe, bne_iff_ne]
      constructor
      · intro h hid
        have h0 := h initialState
        rw [deleteGame_addGame_of_eq _ x id hid] at h0
        exact addGame_ne_self _ x h0
      · intro h s
        exact (deleteGame_addGame_of_ne s x id h).symm
    | deleteGame j =>
      simp only [orderIndependent, reduce, iff_true]
      intro s
      exact deleteGame_comm s id j
    | setCurrentGame c =>
      simp [orderIndependent, reduce, deleteGame, setCurrentGame]
  | setCurrentGame c =>
    cases b with
    | setGames ys => simp [orderIndependent, reduce, setGames, setCurrentGame]
    | addGame x => simp [orderIndependent, reduce, addGame, setCurrentGame]
    | deleteGame j => simp [orderIndependent, reduce, deleteGame, setCurrentGame]
    | setCurrentGame d =>
      simp only [orderIndependent, decide_eq_true_eq, reduce]
      constructor
      · intro h
        have h0 := congrArg GameState.currentGame (h initialState)
        exact h0.symm
      · intro h s
        rw [h]

end BingoVirtual
